import Mathlib

/-!
Verification development for the kobo2calibre highlight-translation engine
(`converter.py`, `db.py`, `test.py`).

The document model mirrors the BeautifulSoup node kinds that the converter
distinguishes: `Tag` elements (name, optional id, ordered children),
`NavigableString` text nodes, `Comment`s and `ProcessingInstruction`s.
Node identity is modelled by the node's arena path (the list of raw child
indices from the document root), as the spec's design notes prescribe for
tree representations without reference identity.  BeautifulSoup's `==`
operator compares rendered content, which corresponds to structural
equality of this inductive type (the corner case that bs4 `Comment`s
compare equal to equal-text `NavigableString`s is not modelled; comments
are never reachable by the traversals studied here).
-/

inductive Node where
  | elem (name : String) (idAttr : Option String) (children : List Node)
  | text (s : String)
  | comment (s : String)
  | procInst (s : String)

mutual

def Node.beqN : Node → Node → Bool
  | .elem n1 i1 c1, .elem n2 i2 c2 => n1 == n2 && i1 == i2 && Node.beqL c1 c2
  | .text a, .text b => a == b
  | .comment a, .comment b => a == b
  | .procInst a, .procInst b => a == b
  | _, _ => false

def Node.beqL : List Node → List Node → Bool
  | [], [] => true
  | a :: as, b :: bs => Node.beqN a b && Node.beqL as bs
  | _, _ => false

end

mutual

def Node.eq_of_beqN : (a b : Node) → Node.beqN a b = true → a = b
  | .elem n1 i1 c1, .elem n2 i2 c2, h => by
      simp only [Node.beqN, Bool.and_eq_true, beq_iff_eq] at h
      obtain ⟨⟨h1, h2⟩, h3⟩ := h
      subst h1; subst h2
      exact congrArg (Node.elem n1 i1) (Node.eq_of_beqL c1 c2 h3)
  | .text a, .text b, h => by
      simp only [Node.beqN, beq_iff_eq] at h; subst h; rfl
  | .comment a, .comment b, h => by
      simp only [Node.beqN, beq_iff_eq] at h; subst h; rfl
  | .procInst a, .procInst b, h => by
      simp only [Node.beqN, beq_iff_eq] at h; subst h; rfl

def Node.eq_of_beqL : (a b : List Node) → Node.beqL a b = true → a = b
  | [], [], _ => rfl
  | a :: as, b :: bs, h => by
      simp only [Node.beqL, Bool.and_eq_true] at h
      obtain ⟨h1, h2⟩ := h
      rw [Node.eq_of_beqN a b h1, Node.eq_of_beqL as bs h2]

end

mutual

def Node.beqN_refl : (a : Node) → Node.beqN a a = true
  | .elem n i c => by
      simp only [Node.beqN, Bool.and_eq_true]
      refine ⟨⟨?_, ?_⟩, Node.beqL_refl c⟩ <;> simp
  | .text a => by simp [Node.beqN]
  | .comment a => by simp [Node.beqN]
  | .procInst a => by simp [Node.beqN]

def Node.beqL_refl : (a : List Node) → Node.beqL a a = true
  | [] => rfl
  | a :: as => by
      simp only [Node.beqL, Bool.and_eq_true]
      exact ⟨Node.beqN_refl a, Node.beqL_refl as⟩

end

instance : DecidableEq Node := fun a b =>
  if h : Node.beqN a b = true then isTrue (Node.eq_of_beqN a b h)
  else isFalse (fun he => h (he ▸ Node.beqN_refl a))

def Node.children : Node → List Node
  | .elem _ _ cs => cs
  | _ => []

def Node.isTag : Node → Bool
  | .elem _ _ _ => true
  | _ => false

def Node.isText : Node → Bool
  | .text _ => true
  | _ => false

def Node.isComment : Node → Bool
  | .comment _ => true
  | _ => false

def Node.isPI : Node → Bool
  | .procInst _ => true
  | _ => false

/-- The string content of a `NavigableString`-like node (`str(node)` in the
source); elements do not reach this accessor in the modelled code paths. -/
def Node.strContent : Node → String
  | .text s => s
  | .comment s => s
  | .procInst s => s
  | .elem _ _ _ => ""

/-- Fetch the node at an arena path (list of raw child indices). -/
def Node.atPath : Node → List Nat → Option Node
  | n, [] => some n
  | n, i :: rest => (n.children.get? i).bind (fun c => c.atPath rest)

/-- Children enumerated with their raw indices, starting at `n`. -/
def indexedChildren : Nat → List Node → List (Nat × Node)
  | _, [] => []
  | n, c :: cs => (n, c) :: indexedChildren (n + 1) cs

/-- The skip rule used by `find_node_by_system1_path` (converter.py:81):
only comments and processing instructions are dropped. -/
def skipNode (c : Node) : Bool := c.isComment || c.isPI

/-- converter.py:79-85 — children of a node with comments and processing
instructions skipped; tags and all strings (whitespace included) kept. -/
def significantChildren (n : Node) : List Node :=
  n.children.filter (fun c => !skipNode c)

/-- Boolean pairwise-distinctness of a child list (used to express when
bs4's content equality agrees with reference identity). -/
def nodupB : List Node → Bool
  | [] => true
  | x :: xs => xs.all (fun y => !(decide (x = y))) && nodupB xs

/- ------------------------------------------------------------------
   parse_system1_cfi (converter.py:34-49)
   ------------------------------------------------------------------ -/

/-- Python whitespace characters stripped by `int()` (the Unicode-only
space characters are not modelled; no modelled input contains them). -/
def isPySpace (c : Char) : Bool :=
  c = ' ' || c = '\t' || c = '\n' || c = '\r' || c.toNat = 11 || c.toNat = 12

def isAsciiDigit (c : Char) : Bool := '0' ≤ c && c ≤ '9'

def digitsVal (l : List Char) : Nat :=
  l.foldl (fun a c => a * 10 + (c.toNat - 48)) 0

def stripPyWS (l : List Char) : List Char :=
  ((l.dropWhile isPySpace).reverse.dropWhile isPySpace).reverse

/-- Model of Python `int(str)`: surrounding whitespace allowed, optional
sign, at least one ASCII digit; anything else raises `ValueError`
(modelled as `none`).  Underscore separators and non-ASCII digits are not
modelled (no modelled input contains them). -/
def pyIntChars? (l : List Char) : Option Int :=
  match stripPyWS l with
  | '-' :: ds =>
      if !ds.isEmpty && ds.all isAsciiDigit then some (-(digitsVal ds : Int)) else none
  | '+' :: ds =>
      if !ds.isEmpty && ds.all isAsciiDigit then some ((digitsVal ds : Int)) else none
  | ds =>
      if !ds.isEmpty && ds.all isAsciiDigit then some ((digitsVal ds : Int)) else none

/-- `str.split(sep)` for a single character separator, Python semantics:
`"".split("/") = [""]`, separators produce empty groups. -/
def splitOnChar (sep : Char) : List Char → List (List Char)
  | [] => [[]]
  | x :: xs =>
      if x = sep then [] :: splitOnChar sep xs
      else
        match splitOnChar sep xs with
        | [] => [[x]]
        | g :: gs => (x :: g) :: gs

def hasChar (t : Char) : List Char → Bool
  | [] => false
  | c :: r => c = t || hasChar t r

/-- converter.py:34-49 `parse_system1_cfi`: strip leading slashes, split at
the first colon into path and offset (offset `None` when there is no
colon), parse every nonempty slash-separated group with `int`.  `none`
models a raised `ValueError`. -/
def parseSystem1CFIChars (cs : List Char) : Option (List Int × Option Int) :=
  let s := cs.dropWhile (fun c => c = '/')
  if hasChar ':' s then
    let pathPart := s.takeWhile (fun c => !(c = ':' : Bool))
    let offsetStr := (s.dropWhile (fun c => !(c = ':' : Bool))).tail
    match pyIntChars? offsetStr,
          ((splitOnChar '/' pathPart).filter (fun g => !g.isEmpty)).mapM pyIntChars? with
    | some off, some steps => some (steps, some off)
    | _, _ => none
  else
    match ((splitOnChar '/' s).filter (fun g => !g.isEmpty)).mapM pyIntChars? with
    | some steps => some (steps, none)
    | none => none

def parse_system1_cfi (s : String) : Option (List Int × Option Int) :=
  parseSystem1CFIChars s.data

/-- The slash-separated integer steps of a path part, as
`parse_system1_cfi` extracts them. -/
def stepsOfChars (a : List Char) : Option (List Int) :=
  ((splitOnChar '/' (a.dropWhile (fun c => c = '/'))).filter (fun g => !g.isEmpty)).mapM
    pyIntChars?

/- ------------------------------------------------------------------
   find_node_by_system1_path (converter.py:60-96)
   ------------------------------------------------------------------ -/

/-- The `while current and not hasattr(current, "children")` climb of
converter.py:73-74, over the ancestor stack (nearest parent first):
strings have no `children` attribute, so pop ancestors until an element is
on top; an exhausted stack models `current.parent` being `None`
(converter.py:75-76 then raises). -/
def climbStack : List (Node × Nat) → Node → Option (List (Node × Nat) × Node)
  | anc, .elem name idv cs => some (anc, .elem name idv cs)
  | [], _ => none
  | (p, _) :: anc2, _ => climbStack anc2 p

/-- converter.py:60-96 `find_node_by_system1_path`, with the node's arena
path tracked through the ancestor stack `anc` (nearest parent first, each
entry a parent node with the raw child index taken from it).  Per step:
climb to the nearest ancestor that has children, collect children skipping
only comments/processing instructions, and index them by `step - 1`;
out-of-range steps raise (`Except.error`). -/
def findGoSt (anc : List (Node × Nat)) (cur : Node) :
    List Int → Except String (List (Node × Nat) × Node)
  | [] => .ok (anc, cur)
  | step :: rest =>
    match climbStack anc cur with
    | none => .error "non-traversable node"
    | some (anc2, cur2) =>
      let sig := (indexedChildren 0 cur2.children).filter (fun p => !skipNode p.2)
      let i : Int := step - 1
      if i < 0 then .error "step out of range"
      else
        match sig.get? i.toNat with
        | some (rawIdx, child) => findGoSt ((cur2, rawIdx) :: anc2) child rest
        | none => .error "step out of range"

/-- converter.py:60-96 — returns the located node together with its arena
path from the given root. -/
def find_node_by_system1_path (soup : Node) (steps : List Int) :
    Except String (List Nat × Node) :=
  (findGoSt [] soup steps).map (fun r => ((r.1.map Prod.snd).reverse, r.2))

/-- The intermediate-segment navigation rule exactly as the spec states it
(§4.4): the segment value is an even integer, converted to a zero-based
index by `value / 2 - 1`, descending among element-only children.  Stated
for comparison with `find_node_by_system1_path`; not part of the source. -/
def claimNavigate (cur : Node) : List Int → Option Node
  | [] => some cur
  | v :: rest =>
      let elems := cur.children.filter Node.isTag
      let idx : Int := v / 2 - 1
      if idx < 0 then none
      else
        match elems.get? idx.toNat with
        | some c => claimNavigate c rest
        | none => none

/- ------------------------------------------------------------------
   encode_cfi (converter.py:340-376)
   ------------------------------------------------------------------ -/

/-- Index of the first list entry content-equal to `c` (bs4 `==`), the
search the encoder's inner loops perform. -/
def firstIdxEq (c : Node) : List Node → Option Nat
  | [] => none
  | x :: xs => if x = c then some 0 else (firstIdxEq c xs).map (fun k => k + 1)

/-- converter.py:340-376 `encode_cfi`, recast over the target's arena path.
Each consecutive (ancestor, child) pair — the pair leading into the target
included — contributes `2 * (1-based index of the first tag child
content-equal to the child)` when that search succeeds and nothing when it
does not (the case of a string child).  The final segment uses the 1-based
index of the first child of the target's parent content-equal to the
target, among all children, with a literal `/1` inserted before the colon
when the target is itself a tag. -/
def encodeCFIGo (parent : Node) (offset : Int) : List Nat → Option String
  | [] => none
  | [i] => do
      let child ← parent.children.get? i
      let pairSeg :=
        match firstIdxEq child (parent.children.filter Node.isTag) with
        | some k => s!"/{2 * (k + 1)}"
        | none => ""
      let j ← firstIdxEq child parent.children
      let fin :=
        if child.isTag then s!"/{j + 1}/1:{offset}" else s!"/{j + 1}:{offset}"
      pure (pairSeg ++ fin)
  | i :: rest => do
      let child ← parent.children.get? i
      let pairSeg :=
        match firstIdxEq child (parent.children.filter Node.isTag) with
        | some k => s!"/{2 * (k + 1)}"
        | none => ""
      let tailStr ← encodeCFIGo child offset rest
      pure (pairSeg ++ tailStr)

/-- converter.py:340-376 — encode a calibre CFI for the node at `path`
under `root`.  An empty path (the root itself) has no parent and raises
(`none`). -/
def encode_cfi (root : Node) (path : List Nat) (offset : Int) : Option String :=
  match path with
  | [] => none
  | _ => encodeCFIGo root offset path

/-- The encoder exactly as the claim describes it: each ancestor element
below the root contributes `2 * (its own 1-based position among its
parent's element-only children)`, and the final segment is the target's
own 1-based position among all siblings, with `/1` inserted when the
target is an element.  Positions here are the addressed node's actual
positions (arena identity), not first-content-match positions.  Stated
for comparison with `encode_cfi`; not part of the source. -/
def encodeCFIClaimGo (parent : Node) (offset : Int) : List Nat → Option String
  | [] => none
  | [i] => do
      let child ← parent.children.get? i
      let fin :=
        if child.isTag then s!"/{i + 1}/1:{offset}" else s!"/{i + 1}:{offset}"
      pure fin
  | i :: rest => do
      let child ← parent.children.get? i
      let pos := ((parent.children.take i).filter Node.isTag).length + 1
      let tailStr ← encodeCFIClaimGo child offset rest
      pure (s!"/{2 * pos}" ++ tailStr)

def encodeCFIClaim (root : Node) (path : List Nat) (offset : Int) : Option String :=
  match path with
  | [] => none
  | _ => encodeCFIClaimGo root offset path

/-- Pairwise-distinct children at every non-leaf node along a path: the
regime in which bs4's content-equality searches agree with arena
identity. -/
def nodupAlongB (parent : Node) : List Nat → Bool
  | [] => true
  | i :: rest =>
      nodupB parent.children &&
        (match parent.children.get? i with
         | some c => nodupAlongB c rest
         | none => true)

/-- The node at `path` under `root` exists and is a text node. -/
def leafIsText (root : Node) (path : List Nat) : Bool :=
  ((root.atPath path).map Node.isText).getD false

/- ------------------------------------------------------------------
   convert_offset_prog1_to_prog2 (converter.py:176-203 and test.py:1-24)
   ------------------------------------------------------------------ -/

def hexVal? (c : Char) : Option Nat :=
  if '0' ≤ c && c ≤ '9' then some (c.toNat - 48)
  else if 'a' ≤ c && c ≤ 'f' then some (c.toNat - 87)
  else if 'A' ≤ c && c ≤ 'F' then some (c.toNat - 55)
  else none

/-- Python `bytes.decode("unicode_escape")`, producing code points.
Handled escapes: `\uXXXX`, `\xXX`, `\UXXXXXXXX`, `\n`, `\t`, `\r`,
`\a`, `\b`, `\f`, `\v`, `\\`, `\'`, `\"`; an unrecognized escape keeps the
backslash and the character, and a truncated escape (or a lone trailing
backslash) raises `UnicodeDecodeError` (`none`).  Octal escapes and
`\N{...}` are not modelled (no modelled input contains them). -/
def unicodeEscapeDecodeGo : List Char → Option (List Nat)
  | [] => some []
  | '\\' :: 'u' :: a :: b :: c :: d :: rest => do
      let va ← hexVal? a
      let vb ← hexVal? b
      let vc ← hexVal? c
      let vd ← hexVal? d
      let cps ← unicodeEscapeDecodeGo rest
      pure ((va * 4096 + vb * 256 + vc * 16 + vd) :: cps)
  | '\\' :: 'u' :: _ => none
  | '\\' :: 'U' :: a :: b :: c :: d :: e :: f :: g :: h :: rest => do
      let va ← hexVal? a
      let vb ← hexVal? b
      let vc ← hexVal? c
      let vd ← hexVal? d
      let ve ← hexVal? e
      let vf ← hexVal? f
      let vg ← hexVal? g
      let vh ← hexVal? h
      let cps ← unicodeEscapeDecodeGo rest
      pure ((((((((va * 16 + vb) * 16 + vc) * 16 + vd) * 16 + ve) * 16 + vf) * 16 + vg) * 16 + vh) :: cps)
  | '\\' :: 'U' :: _ => none
  | '\\' :: 'x' :: a :: b :: rest => do
      let va ← hexVal? a
      let vb ← hexVal? b
      let cps ← unicodeEscapeDecodeGo rest
      pure ((va * 16 + vb) :: cps)
  | '\\' :: 'x' :: _ => none
  | '\\' :: 'n' :: rest => (unicodeEscapeDecodeGo rest).map (fun l => 10 :: l)
  | '\\' :: 't' :: rest => (unicodeEscapeDecodeGo rest).map (fun l => 9 :: l)
  | '\\' :: 'r' :: rest => (unicodeEscapeDecodeGo rest).map (fun l => 13 :: l)
  | '\\' :: 'a' :: rest => (unicodeEscapeDecodeGo rest).map (fun l => 7 :: l)
  | '\\' :: 'b' :: rest => (unicodeEscapeDecodeGo rest).map (fun l => 8 :: l)
  | '\\' :: 'f' :: rest => (unicodeEscapeDecodeGo rest).map (fun l => 12 :: l)
  | '\\' :: 'v' :: rest => (unicodeEscapeDecodeGo rest).map (fun l => 11 :: l)
  | '\\' :: '\\' :: rest => (unicodeEscapeDecodeGo rest).map (fun l => 92 :: l)
  | ['\\'] => none
  | '\\' :: c :: rest =>
      if c.toNat = 39 || c.toNat = 34 then
        (unicodeEscapeDecodeGo rest).map (fun l => c.toNat :: l)
      else
        (unicodeEscapeDecodeGo rest).map (fun l => 92 :: c.toNat :: l)
  | c :: rest => (unicodeEscapeDecodeGo rest).map (fun l => c.toNat :: l)

def hexDigitChar (n : Nat) : Char :=
  if n < 10 then Char.ofNat (48 + n) else Char.ofNat (87 + n)

def toHex : Nat → Nat → List Char
  | 0, _ => []
  | w + 1, n => toHex w (n / 16) ++ [hexDigitChar (n % 16)]

/-- Python `str.encode("unicode_escape").decode("ascii")`: backslash, tab,
newline and carriage return are escaped by letter, other characters below
0x20 and all of 0x7F..0xFF as `\xXX`, the rest of the BMP as `\uXXXX` and
astral code points as `\UXXXXXXXX` (lowercase hex). -/
def unicodeEscapeEncodeChar (c : Nat) : List Char :=
  if c = 92 then ['\\', '\\']
  else if c = 9 then ['\\', 't']
  else if c = 10 then ['\\', 'n']
  else if c = 13 then ['\\', 'r']
  else if 32 ≤ c && c < 127 then [Char.ofNat c]
  else if c < 256 then '\\' :: 'x' :: toHex 2 c
  else if c < 65536 then '\\' :: 'u' :: toHex 4 c
  else '\\' :: 'U' :: toHex 8 c

def unicodeEscapeEncode (s : String) : String :=
  String.mk (((s.data.map Char.toNat).map unicodeEscapeEncodeChar).flatten)

/-- UTF-8 encoding of one code point; surrogates and out-of-range values
raise in Python's `str.encode("utf-8")` (`none`). -/
def utf8EncodeCp (c : Nat) : Option (List Nat) :=
  if c < 128 then some [c]
  else if c < 2048 then some [192 + c / 64, 128 + c % 64]
  else if 55296 ≤ c && c < 57344 then none
  else if c < 65536 then some [224 + c / 4096, 128 + c / 64 % 64, 128 + c % 64]
  else if c < 1114112 then
    some [240 + c / 262144, 128 + c / 4096 % 64, 128 + c / 64 % 64, 128 + c % 64]
  else none

def utf8Encode (cps : List Nat) : Option (List Nat) :=
  (cps.mapM utf8EncodeCp).map List.flatten

def isUtf8Cont (b : Nat) : Bool := 128 ≤ b && b < 192

/-- Strict UTF-8 decoding to code points, as Python `bytes.decode("utf-8")`:
truncated sequences, stray continuation bytes, overlong forms and encoded
surrogates raise `UnicodeDecodeError` (`none`). -/
def utf8DecodeStrict : List Nat → Option (List Nat)
  | [] => some []
  | b :: rest =>
    if b < 128 then (utf8DecodeStrict rest).map (fun l => b :: l)
    else if b < 194 then none
    else if b < 224 then
      match rest with
      | b1 :: rest2 =>
          if isUtf8Cont b1 then
            (utf8DecodeStrict rest2).map (fun l => ((b - 192) * 64 + (b1 - 128)) :: l)
          else none
      | [] => none
    else if b < 240 then
      match rest with
      | b1 :: b2 :: rest2 =>
          let cp := (b - 224) * 4096 + (b1 - 128) * 64 + (b2 - 128)
          if isUtf8Cont b1 && isUtf8Cont b2 && decide (2048 ≤ cp) &&
              !(decide (55296 ≤ cp) && decide (cp < 57344)) then
            (utf8DecodeStrict rest2).map (fun l => cp :: l)
          else none
      | _ => none
    else if b < 245 then
      match rest with
      | b1 :: b2 :: b3 :: rest2 =>
          let cp := (b - 240) * 262144 + (b1 - 128) * 4096 + (b2 - 128) * 64 + (b3 - 128)
          if isUtf8Cont b1 && isUtf8Cont b2 && isUtf8Cont b3 &&
              decide (65536 ≤ cp) && decide (cp < 1114112) then
            (utf8DecodeStrict rest2).map (fun l => cp :: l)
          else none
      | _ => none
    else none

/-- Python prefix slice `l[:k]`: `None` keeps everything, a negative bound
counts from the end. -/
def pySlicePrefix {α : Type} (l : List α) : Option Int → List α
  | none => l
  | some k => if k < 0 then l.take (l.length - (-k).toNat) else l.take k.toNat

/-- converter.py:176-203 `convert_offset_prog1_to_prog2`: decode the WHOLE
escaped text with `unicode_escape`, re-encode it as UTF-8 bytes, cut the
byte prefix at `offset_prog1`, strictly UTF-8-decode the prefix and return
its length in code points.  Any decode/encode error raises (`none`). -/
def convert_offset_prog1_to_prog2 (textProg1 : String) (offsetProg1 : Option Int) :
    Option Nat :=
  if textProg1.data.all (fun c => c.toNat < 128) then
    match unicodeEscapeDecodeGo textProg1.data with
    | none => none
    | some cps =>
      match utf8Encode cps with
      | none => none
      | some bytes =>
        match utf8DecodeStrict (pySlicePrefix bytes offsetProg1) with
        | none => none
        | some decoded => some decoded.length
  else none

/-- test.py:1-24 variant of `convert_offset_prog1_to_prog2`: cut the
ESCAPED text at `offset_prog1` first, then `unicode_escape`-decode the
prefix and return its length; a prefix ending inside an escape raises
(`none`). -/
def convert_offset_prog1_to_prog2_test (textProg1 : String) (offsetProg1 : Option Int) :
    Option Nat :=
  let sub := pySlicePrefix textProg1.data offsetProg1
  if sub.all (fun c => c.toNat < 128) then
    match unicodeEscapeDecodeGo sub with
    | none => none
    | some cps => some cps.length
  else none

/- ------------------------------------------------------------------
   convert_cfi_system1_to_system2 (converter.py:209-231)
   ------------------------------------------------------------------ -/

/-- The decode half of converter.py:209-231: parse the system-1 CFI and
locate the node; the claimed round-trip inverse of `encode_cfi`. -/
def decodeSystem1 (soup : Node) (cfiStr : String) :
    Option ((List Nat × Node) × Option Int) := do
  let (steps, off) ← parseSystem1CFIChars cfiStr.data
  let res ← (find_node_by_system1_path soup steps).toOption
  pure (res, off)

/-- converter.py:209-231 `convert_cfi_system1_to_system2`: parse, locate,
reject non-`NavigableString` targets, re-base the offset through the
escaped representation of the node's text, and encode the calibre CFI.
`none` models a raised exception. -/
def convert_cfi_system1_to_system2 (soup : Node) (cfiStr : String) : Option String := do
  let (steps, charOffset) ← parseSystem1CFIChars cfiStr.data
  match find_node_by_system1_path soup steps with
  | .error _ => none
  | .ok (path, node) =>
    if node.isTag then none
    else do
      let ascii := unicodeEscapeEncode node.strContent
      let off2 ← convert_offset_prog1_to_prog2 ascii charOffset
      encode_cfi soup path (Int.ofNat off2)

/- ------------------------------------------------------------------
   REGEX_KTE sentence split (converter.py:24-27, 323-337)
   ------------------------------------------------------------------ -/

def isKTETerminator (c : Char) : Bool :=
  c = '.' || c = '!' || c = '?' || c = ':'

/-- The optional closing character after the terminator in REGEX_KTE:
straight single/double quote, curly double quotes, curly single quotes,
horizontal ellipsis. -/
def isKTEQuote (c : Char) : Bool :=
  c.toNat = 39 || c = '"' || c.toNat = 8220 || c.toNat = 8221 ||
    c.toNat = 8216 || c.toNat = 8217 || c.toNat = 8230

/-- One match of REGEX_KTE `(\s*.*?[\.\!\?\:][quote]?\s*)` anchored at the
head of `cs`: greedy leading whitespace, then the shortest run of
non-newline characters up to a terminator (`.` does not cross newlines),
one optional closing quote, then greedy trailing whitespace.  Returns the
matched characters and the remainder, or `none` when no match starts
here. -/
def kteTryMatch (cs : List Char) : Option (List Char × List Char) :=
  let ws := cs.takeWhile isPySpace
  let rest1 := cs.dropWhile isPySpace
  let body := rest1.takeWhile (fun c => !isKTETerminator c && !(c = '\n' : Bool))
  let rest2 := rest1.dropWhile (fun c => !isKTETerminator c && !(c = '\n' : Bool))
  match rest2 with
  | [] => none
  | c :: rest3 =>
    if isKTETerminator c then
      let quoted :=
        match rest3 with
        | d :: r4 => if isKTEQuote d then ([d], r4) else (([] : List Char), rest3)
        | [] => (([] : List Char), rest3)
      let tw := quoted.2.takeWhile isPySpace
      let rest5 := quoted.2.dropWhile isPySpace
      some (ws ++ body ++ c :: quoted.1 ++ tw, rest5)
    else none

/-- `re.split(REGEX_KTE, text)`: pieces between matches interleaved with
the captured matches (the whole pattern is one capture group). -/
def kteSplitGo : Nat → List Char → List Char → List String
  | 0, pending, cs => [String.mk (pending ++ cs)]
  | fuel + 1, pending, cs =>
    match kteTryMatch cs with
    | some (m, rest) => String.mk pending :: String.mk m :: kteSplitGo fuel [] rest
    | none =>
      match cs with
      | [] => [String.mk pending]
      | c :: rest => kteSplitGo fuel (pending ++ [c]) rest

def kteSplit (text : String) : List String :=
  kteSplitGo (text.length + 1) [] text.data

/-- converter.py:328-329 — the nonempty groups of the REGEX_KTE split. -/
def kteSentences (node : String) : List String :=
  (kteSplit node).filter (fun g => !(g = "" : Bool))

/-- The accumulation loop of converter.py:335-336: sum the lengths of
`sentences[0] .. sentences[k-1]`, raising `IndexError` (`none`) when the
list is shorter than `k`. -/
def sumFirstSentences (sentences : List String) : Nat → Option Nat
  | 0 => some 0
  | n + 1 => do
      let acc ← sumFirstSentences sentences n
      let s ← sentences.get? n
      pure (acc + s.length)

/-- converter.py:323-337 `get_prev_sentences_offset`. -/
def get_prev_sentences_offset (node : String) (nSentencesOffset : Nat) : Option Nat :=
  if nSentencesOffset > 1 then
    sumFirstSentences (kteSentences node) (nSentencesOffset - 1)
  else some 0

/- ------------------------------------------------------------------
   Device-path decoding (spec §4.2/§4.3; the caller of
   get_prev_sentences_offset exists in src only as commented-out code,
   converter.py:447-509)
   ------------------------------------------------------------------ -/

/-- Characters removed by Python `str.strip()` (non-breaking space
included, matching the explicit checks in converter.py:464-470). -/
def isPyStripSpace (c : Char) : Bool := isPySpace c || c.toNat = 160

mutual

/-- Modelled from the spec: `significant_text_nodes` (§4.2) — the
device-side walker is present in src only as the commented-out loop in
converter.py:458-471.  Document-order text nodes, excluding comments,
processing instructions, whitespace-only strings (newline, space,
non-breaking space, empty after strip) and anything below a `figure`
element.  Each hit is returned with its arena path. -/
def sigTextGo (inFigure : Bool) (path : List Nat) : Node → List (List Nat × String)
  | .text s =>
      if inFigure || s.data.all isPyStripSpace then [] else [(path, s)]
  | .elem name _ cs => sigTextGoList (inFigure || name = "figure") path 0 cs
  | .comment _ => []
  | .procInst _ => []

def sigTextGoList (inFigure : Bool) (path : List Nat) (i : Nat) :
    List Node → List (List Nat × String)
  | [] => []
  | c :: cs =>
      sigTextGo inFigure (path ++ [i]) c ++ sigTextGoList inFigure path (i + 1) cs

end

def significant_text_nodes (root : Node) : List (List Nat × String) :=
  sigTextGo false [] root

/-- Modelled from the spec: `decode_device_path` (§4.3) — absent from src
except as the commented-out block converter.py:447-509; the sentence
arithmetic is the live `get_prev_sentences_offset`.  The 1-based
`tagIndex`-th significant text node is the target, and the offset adds the
lengths of the first `sentenceIndex - 1` tokenizer sentences to the base
offset. -/
def decode_device_path (root : Node) (tagIndex sentenceIndex baseOffset : Nat) :
    Option (List Nat × Nat) := do
  let nodes := significant_text_nodes root
  let pair ← nodes.get? (tagIndex - 1)
  let add ← get_prev_sentences_offset pair.2 sentenceIndex
  pure (pair.1, baseOffset + add)

/- ------------------------------------------------------------------
   Highlight records and the per-book batch loop
   (converter.py:284-320, 405-548; db.py)
   ------------------------------------------------------------------ -/

structure KoboHighlight where
  startPath : String
  endPath : String
  startOffset : Int
  endOffset : Int
  text : String
  contentPath : String
  color : Int
deriving DecidableEq

structure CalibreStyle where
  kind : String
  variant : String
  which : String
deriving DecidableEq

structure CalibreHighlightJson where
  startCfi : String
  endCfi : String
  highlightedText : String
  spineIndex : Nat
  spineName : String
  style : CalibreStyle
  annotKind : String
deriving DecidableEq

/-- converter.py:525-535 — the calibre annotation payload built by
`parse_kobo_highlights`; the style descriptor is the hard-coded constant
`{"kind": "color", "type": "builtin", "which": "green"}` (the uuid and
timestamp fields are external effects and are not modelled). -/
def mkCalibreHighlightJson (startCfi endCfi text : String) (spineIndex : Nat)
    (spineName : String) : CalibreHighlightJson :=
  { startCfi := startCfi
    endCfi := endCfi
    highlightedText := text
    spineIndex := spineIndex
    spineName := spineName
    style := { kind := "color", variant := "builtin", which := "green" }
    annotKind := "highlight" }

/-- converter.py:303-306 — replace the highlight's content path when the
spine fix-up map has an entry for it. -/
def applyFixedPath (fixedPath : String → Option String) (h : KoboHighlight) :
    KoboHighlight :=
  match fixedPath h.contentPath with
  | some fp => { h with contentPath := fp }
  | none => h

/-- The `for` loop of converter.py:301-313, inside the `try` of line 293:
each highlight is path-fixed and converted; a conversion returning a
highlight appends it, `None` is skipped, and a raised exception
(`Except.error`) transfers control to the `except` handler of line 315,
which logs and falls through — so the results collected so far are kept
and the remaining highlights are never processed.  The conversion step
stands for `parse_kobo_highlights` with its filesystem inputs fixed. -/
def processHighlightsLoop (fixedPath : String → Option String)
    (convert : KoboHighlight → Except String (Option CalibreHighlightJson)) :
    List KoboHighlight → List CalibreHighlightJson
  | [] => []
  | h :: rest =>
    match convert (applyFixedPath fixedPath h) with
    | .error _ => []
    | .ok none => processHighlightsLoop fixedPath convert rest
    | .ok (some ch) => ch :: processHighlightsLoop fixedPath convert rest

/-- converter.py:284-320 `process_calibre_epub`: reading the spine index
map and the whole highlight loop run under one `try`; a failure reading
the spine yields no highlights for the book. -/
def process_calibre_epub (spine : Except String (String → Option Nat))
    (fixedPath : String → Option String)
    (convert : KoboHighlight → Except String (Option CalibreHighlightJson))
    (highlights : List KoboHighlight) : List CalibreHighlightJson :=
  match spine with
  | .error _ => []
  | .ok _ => processHighlightsLoop fixedPath convert highlights

/- ------------------------------------------------------------------
   Color mapping (spec §6/§8; db.py:174-181, converter.py:531)
   ------------------------------------------------------------------ -/

/-- Modelled from the spec: `calibre_color_to_kobo_color` is named by the
spec (§8) but absent from src; table per §6: yellow=0, purple=1, blue=2,
green=3, anything else 0. -/
def calibre_color_to_kobo_color (c : String) : Int :=
  if c = "yellow" then 0
  else if c = "purple" then 1
  else if c = "blue" then 2
  else if c = "green" then 3
  else 0

/-- Modelled from the spec: `kobo_color_to_calibre_color` is named by the
spec (§8) but absent from src; inverse table, anything else "yellow"
(db.py:179 applies the same "yellow" default when reading calibre
annotations). -/
def kobo_color_to_calibre_color (k : Int) : String :=
  if k = 0 then "yellow"
  else if k = 1 then "purple"
  else if k = 2 then "blue"
  else if k = 3 then "green"
  else "yellow"

/- ------------------------------------------------------------------
   Concrete documents used by the claims
   ------------------------------------------------------------------ -/

/-- `<html><body><p>Hello</p></body></html>` as parsed by
`parse_only_html_body` (document root with the single child `html`). -/
def pHello : Node := .elem "p" none [.text "Hello"]

def bodyHello : Node := .elem "body" none [pHello]

def htmlHello : Node := .elem "html" none [bodyHello]

def docHello : Node := .elem "[document]" none [htmlHello]

/-- The §8 scenario document: `<body><p>Hello world. This is a test.</p></body>`. -/
def scenarioText : String := "Hello world. This is a test."

def docScenario : Node :=
  .elem "[document]" none
    [.elem "html" none [.elem "body" none [.elem "p" none [.text scenarioText]]]]

/-- A document whose `body` has two content-identical `<p>` children; the
arena path `[0, 0, 1, 0]` addresses the text inside the SECOND `p`. -/
def docDup : Node :=
  .elem "[document]" none
    [.elem "html" none
      [.elem "body" none
        [.elem "p" none [.text "a"], .elem "p" none [.text "a"]]]]

/-- `<html>` with two element children, where step value 2 distinguishes
the source's all-children 1-based indexing from the claimed
`(value / 2) - 1` element-only indexing. -/
def c4kids : List Node :=
  [.elem "p" none [.text "A"], .elem "div" none [.text "B"]]

def htmlC4 : Node := .elem "html" none c4kids

/-- Demonstration conversion step for the batch loop: fails on the
highlight whose text is "bad", succeeds otherwise. -/
def convDemo (h : KoboHighlight) : Except String (Option CalibreHighlightJson) :=
  if h.text = "bad" then .error "failed to decode CFI"
  else .ok (some (mkCalibreHighlightJson "/2/2/1:0" "/2/2/1:4" h.text 0 h.contentPath))

def hBad : KoboHighlight :=
  { startPath := "p1", endPath := "p2", startOffset := 0, endOffset := 4
    text := "bad", contentPath := "ch1.xhtml", color := 0 }

def hGood : KoboHighlight :=
  { startPath := "p3", endPath := "p4", startOffset := 0, endOffset := 4
    text := "good", contentPath := "ch1.xhtml", color := 0 }

/- ------------------------------------------------------------------
   Helper lemmas
   ------------------------------------------------------------------ -/

theorem str_nil_append (s : String) : "" ++ s = s := by
  cases s
  rfl

theorem hasChar_append_cons (t : Char) (a b : List Char) :
    hasChar t (a ++ t :: b) = true := by
  induction a with
  | nil => simp [hasChar]
  | cons c r ih => simp [hasChar, ih]

theorem hasChar_dropWhile (t : Char) (p : Char → Bool) (l : List Char)
    (h : hasChar t l = false) : hasChar t (l.dropWhile p) = false := by
  induction l with
  | nil => simpa [List.dropWhile] using h
  | cons c r ih =>
      simp only [hasChar, Bool.or_eq_false_iff] at h
      by_cases hp : p c
      · simp only [List.dropWhile, hp]
        exact ih h.2
      · simp only [List.dropWhile, hp]
        simp [hasChar, h.1, h.2]

theorem dropWhile_append_cons (p : Char → Bool) (x : Char) (hx : p x = false)
    (a b : List Char) : (a ++ x :: b).dropWhile p = a.dropWhile p ++ x :: b := by
  induction a with
  | nil => simp [List.dropWhile, hx]
  | cons c r ih =>
      by_cases hp : p c
      · simp [List.dropWhile, hp, ih]
      · simp [List.dropWhile, hp]

theorem colon_takeWhile (a b : List Char) (h : hasChar ':' a = false) :
    (a ++ ':' :: b).takeWhile (fun c => !(c = ':' : Bool)) = a := by
  induction a with
  | nil => simp [List.takeWhile]
  | cons c r ih =>
      simp only [hasChar, Bool.or_eq_false_iff] at h
      have hc : ¬(c = ':') := by
        intro he
        simp [he] at h
      simp [List.takeWhile, hc, ih h.2]

theorem colon_dropWhile (a b : List Char) (h : hasChar ':' a = false) :
    (a ++ ':' :: b).dropWhile (fun c => !(c = ':' : Bool)) = ':' :: b := by
  induction a with
  | nil => simp [List.dropWhile]
  | cons c r ih =>
      simp only [hasChar, Bool.or_eq_false_iff] at h
      have hc : ¬(c = ':') := by
        intro he
        simp [he] at h
      simp [List.dropWhile, hc, ih h.2]

theorem sumFirstSentences_oob (l : List String) (n : Nat) (h : l.length ≤ n) :
    sumFirstSentences l (n + 1) = none := by
  have hg : l.get? n = none := by
    rw [List.get?_eq_getElem?]
    exact List.getElem?_eq_none h
  cases hs : sumFirstSentences l n with
  | none => simp [sumFirstSentences, hs]
  | some v =>
      simp only [sumFirstSentences, hs, hg, Option.bind_eq_bind, Option.some_bind,
        Option.none_bind]

theorem sumFirstSentences_take (l : List String) (n : Nat) (h : n ≤ l.length) :
    sumFirstSentences l n = some (((l.map String.length).take n).sum) := by
  induction n with
  | zero => simp [sumFirstSentences]
  | succ m ih =>
      have hm : m < l.length := h
      have hm2 : m < (l.map String.length).length := by simpa using hm
      have hg : l.get? m = some l[m] := by
        rw [List.get?_eq_getElem?, List.getElem?_eq_getElem hm]
      simp only [sumFirstSentences, ih (Nat.le_of_lt hm), hg, Option.bind_eq_bind,
        Option.some_bind]
      rw [List.sum_take_succ _ m hm2]
      simp

theorem processHighlightsLoop_cut (fp : String → Option String)
    (conv : KoboHighlight → Except String (Option CalibreHighlightJson))
    (h : KoboHighlight) (e : String)
    (hconv : conv (applyFixedPath fp h) = .error e) :
    ∀ pre rest : List KoboHighlight,
      processHighlightsLoop fp conv (pre ++ h :: rest) =
        processHighlightsLoop fp conv pre := by
  intro pre
  induction pre with
  | nil =>
      intro rest
      simp [processHighlightsLoop, hconv]
  | cons x xs ih =>
      intro rest
      cases hx : conv (applyFixedPath fp x) with
      | error e2 => simp [processHighlightsLoop, hx]
      | ok o =>
          cases o with
          | none => simp [processHighlightsLoop, hx, ih rest]
          | some ch => simp [processHighlightsLoop, hx, ih rest]

theorem nodupB_head (x : Node) (xs : List Node) (h : nodupB (x :: xs) = true) :
    (∀ y ∈ xs, ¬(x = y)) ∧ nodupB xs = true := by
  simp only [nodupB, Bool.and_eq_true, List.all_eq_true] at h
  refine ⟨fun y hy => ?_, h.2⟩
  have := h.1 y hy
  simpa using this

theorem firstIdxEq_of_nodup (c : Node) :
    ∀ (l : List Node) (i : Nat), nodupB l = true → l.get? i = some c →
      firstIdxEq c l = some i := by
  intro l
  induction l with
  | nil => intro i _ hg; simp at hg
  | cons x xs ih =>
      intro i hn hg
      obtain ⟨hne, hxs⟩ := nodupB_head x xs hn
      cases i with
      | zero =>
          simp only [List.get?] at hg
          injection hg with hg
          simp [firstIdxEq, hg]
      | succ n =>
          simp only [List.get?] at hg
          have hc : c ∈ xs := List.get?_mem hg
          have hx : ¬(x = c) := fun he => hne c hc he
          simp [firstIdxEq, hx, ih n hxs hg]

theorem firstIdxEq_filter_not_tag (c : Node) (hc : c.isTag = false) :
    ∀ l : List Node, firstIdxEq c (l.filter Node.isTag) = none := by
  intro l
  induction l with
  | nil => rfl
  | cons x xs ih =>
      by_cases hx : x.isTag = true
      · have hxc : ¬(x = c) := fun he => by rw [he, hc] at hx; exact Bool.false_ne_true hx
        simp [List.filter_cons, hx, firstIdxEq, hxc, ih]
      · simp only [Bool.not_eq_true] at hx
        simp [List.filter_cons, hx, ih]

theorem firstIdxEq_filter_of_nodup (c : Node) (hc : c.isTag = true) :
    ∀ (l : List Node) (i : Nat), nodupB l = true → l.get? i = some c →
      firstIdxEq c (l.filter Node.isTag) =
        some (((l.take i).filter Node.isTag).length) := by
  intro l
  induction l with
  | nil => intro i _ hg; simp at hg
  | cons x xs ih =>
      intro i hn hg
      obtain ⟨hne, hxs⟩ := nodupB_head x xs hn
      cases i with
      | zero =>
          simp only [List.get?] at hg
          injection hg with hg
          subst hg
          simp [List.filter_cons, hc, firstIdxEq]
      | succ n =>
          simp only [List.get?] at hg
          have hmem : c ∈ xs := List.get?_mem hg
          have hx : ¬(x = c) := fun he => hne c hmem he
          by_cases hxt : x.isTag = true
          · simp [List.filter_cons, hxt, firstIdxEq, hx, ih n hxs hg, List.take_cons]
          · simp only [Bool.not_eq_true] at hxt
            simp [List.filter_cons, hxt, firstIdxEq, ih n hxs hg, List.take_cons]

theorem leafIsText_cons (parent : Node) (i : Nat) (rest : List Nat) :
    leafIsText parent (i :: rest) =
      ((parent.children.get? i).map (fun c => leafIsText c rest)).getD false := by
  show ((Node.atPath parent (i :: rest)).map Node.isText).getD false = _
  rw [Node.atPath.eq_2]
  cases parent.children.get? i with
  | none => rfl
  | some c => rfl

theorem leafIsText_nil (c : Node) : leafIsText c [] = c.isText := rfl

theorem encodeGo_eq_claimGo :
    ∀ (path : List Nat) (parent : Node) (off : Int),
      nodupAlongB parent path = true → leafIsText parent path = true →
      encodeCFIGo parent off path = encodeCFIClaimGo parent off path := by
  intro path
  induction path with
  | nil => intro parent off _ _; rfl
  | cons i rest ih =>
      intro parent off hn hl
      rw [leafIsText_cons] at hl
      cases hg : parent.children.get? i with
      | none =>
          rw [hg] at hl
          simp at hl
      | some c =>
          rw [hg] at hl
          simp at hl
          have hnn : nodupB parent.children = true ∧ nodupAlongB c rest = true := by
            simp only [nodupAlongB, Bool.and_eq_true, hg] at hn
            exact hn
          cases rest with
          | nil =>
              have hct : c.isText = true := by rw [leafIsText_nil] at hl; exact hl
              have hcTag : c.isTag = false := by
                cases c <;> simp_all [Node.isText, Node.isTag]
              simp only [encodeCFIGo, encodeCFIClaimGo, hg, Option.bind_eq_bind,
                Option.some_bind]
              rw [firstIdxEq_filter_not_tag c hcTag,
                firstIdxEq_of_nodup c parent.children i hnn.1 hg]
              simp [hcTag, str_nil_append]
          | cons j rest2 =>
              have hcTag : c.isTag = true := by
                cases c with
                | elem nm iv cs => rfl
                | text s =>
                    exfalso
                    rw [leafIsText_cons] at hl
                    simp [Node.children] at hl
                | comment s =>
                    exfalso
                    rw [leafIsText_cons] at hl
                    simp [Node.children] at hl
                | procInst s =>
                    exfalso
                    rw [leafIsText_cons] at hl
                    simp [Node.children] at hl
              simp only [encodeCFIGo, encodeCFIClaimGo, hg, Option.bind_eq_bind,
                Option.some_bind]
              rw [firstIdxEq_filter_of_nodup c hcTag parent.children i hnn.1 hg]
              rw [ih c off hnn.2 hl]

theorem climbStack_kind :
    ∀ (anc : List (Node × Nat)) (cur : Node) (anc2 : List (Node × Nat)) (cur2 : Node),
      (∀ p ∈ anc, p.1.isTag = true) → climbStack anc cur = some (anc2, cur2) →
      cur2.isTag = true ∧ ∀ p ∈ anc2, p.1.isTag = true := by
  intro anc
  induction anc with
  | nil =>
      intro cur anc2 cur2 _ hcl
      cases cur with
      | elem nm iv cs =>
          simp only [climbStack] at hcl
          injection hcl with hcl
          injection hcl with h1 h2
          subst h1; subst h2
          exact ⟨rfl, by intro p hp; simp at hp⟩
      | text s => simp [climbStack] at hcl
      | comment s => simp [climbStack] at hcl
      | procInst s => simp [climbStack] at hcl
  | cons hd tl ih =>
      intro cur anc2 cur2 hanc hcl
      cases cur with
      | elem nm iv cs =>
          simp only [climbStack] at hcl
          injection hcl with hcl
          injection hcl with h1 h2
          subst h1; subst h2
          exact ⟨rfl, hanc⟩
      | text s =>
          exact ih hd.1 anc2 cur2 (fun p hp => hanc p (List.mem_cons_of_mem hd hp))
            (by simpa [climbStack] using hcl)
      | comment s =>
          exact ih hd.1 anc2 cur2 (fun p hp => hanc p (List.mem_cons_of_mem hd hp))
            (by simpa [climbStack] using hcl)
      | procInst s =>
          exact ih hd.1 anc2 cur2 (fun p hp => hanc p (List.mem_cons_of_mem hd hp))
            (by simpa [climbStack] using hcl)

theorem indexedChildren_filter_kind (cs : List Node) :
    ∀ (n k : Nat) (r : Nat) (c : Node),
      ((indexedChildren n cs).filter (fun p => !skipNode p.2)).get? k = some (r, c) →
      (c.isTag || c.isText) = true := by
  induction cs with
  | nil => intro n k r c hg; simp [indexedChildren] at hg
  | cons x xs ih =>
      intro n k r c hg
      by_cases hx : skipNode x = true
      · rw [indexedChildren] at hg
        rw [List.filter_cons] at hg
        simp only [hx] at hg
        exact ih (n + 1) k r c (by simpa using hg)
      · rw [indexedChildren] at hg
        rw [List.filter_cons] at hg
        simp only [Bool.not_eq_true] at hx
        simp only [hx] at hg
        cases k with
        | zero =>
            simp only [List.get?] at hg
            injection hg with hg
            have hcx : c = x := (congrArg Prod.snd hg).symm
            subst hcx
            cases c with
            | elem nm iv cc => rfl
            | text s => rfl
            | comment s => simp [skipNode, Node.isComment] at hx
            | procInst s => simp [skipNode, Node.isPI] at hx
        | succ m =>
            simp only [List.get?] at hg
            exact ih (n + 1) m r c hg

theorem findGoSt_kind :
    ∀ (steps : List Int) (anc : List (Node × Nat)) (cur : Node)
      (res : List (Node × Nat) × Node),
      (∀ p ∈ anc, p.1.isTag = true) → findGoSt anc cur steps = .ok res →
      (res.2.isTag || res.2.isText) = true ∨ res.2 = cur := by
  intro steps
  induction steps with
  | nil =>
      intro anc cur res _ hfind
      simp only [findGoSt] at hfind
      injection hfind with hfind
      right
      rw [← hfind]
  | cons step rest ih =>
      intro anc cur res hanc hfind
      simp only [findGoSt] at hfind
      cases hcl : climbStack anc cur with
      | none => rw [hcl] at hfind; exact absurd hfind (by simp)
      | some st =>
          obtain ⟨anc2, cur2⟩ := st
          rw [hcl] at hfind
          obtain ⟨hcur2, hanc2⟩ := climbStack_kind anc cur anc2 cur2 hanc hcl
          by_cases hneg : ((step - 1 : Int) < 0)
          · simp only [hneg, if_true] at hfind
            exact absurd hfind (by simp)
          · simp only [hneg, if_false] at hfind
            cases hg : ((indexedChildren 0 cur2.children).filter
                (fun p => !skipNode p.2)).get? (step - 1).toNat with
            | none => rw [hg] at hfind; exact absurd hfind (by simp)
            | some pr =>
                obtain ⟨rawIdx, child⟩ := pr
                rw [hg] at hfind
                have hkind := indexedChildren_filter_kind cur2.children 0
                  ((step - 1).toNat) rawIdx child hg
                have := ih ((cur2, rawIdx) :: anc2) child res
                  (by
                    intro p hp
                    rcases List.mem_cons.mp hp with h | h
                    · rw [h]; exact hcur2
                    · exact hanc2 p h)
                  hfind
                rcases this with h | h
                · exact .inl h
                · rw [h]; exact .inl hkind

theorem indexedChildren_filter_get_snd (cs : List Node) :
    ∀ (n k : Nat),
      ((((indexedChildren n cs).filter (fun p => !skipNode p.2)).get? k).map Prod.snd) =
        (cs.filter (fun c => !skipNode c)).get? k := by
  induction cs with
  | nil => intro n k; simp [indexedChildren]
  | cons x xs ih =>
      intro n k
      rw [indexedChildren, List.filter_cons, List.filter_cons]
      by_cases hx : skipNode x = true
      · simp only [hx]
        exact ih (n + 1) k
      · simp only [Bool.not_eq_true] at hx
        simp only [hx]
        cases k with
        | zero => rfl
        | succ m =>
            simp only [List.get?]
            exact ih (n + 1) m

/- ------------------------------------------------------------------
   Claim theorems
   ------------------------------------------------------------------ -/

/-- C1 counterexample: in `process_calibre_epub` the `try` wraps the whole
highlight loop, so when the first highlight's conversion raises, the
second highlight — whose conversion succeeds on its own — is never
processed and the batch result is empty; the claim that every remaining
highlight is still processed is false. -/
theorem spec_c1_counterexample :
    process_calibre_epub (.ok (fun _ => some 0)) (fun _ => none) convDemo
        [hBad, hGood] = [] ∧
    process_calibre_epub (.ok (fun _ => some 0)) (fun _ => none) convDemo
        [hGood] = [mkCalibreHighlightJson "/2/2/1:0" "/2/2/1:4" "good" 0 "ch1.xhtml"] ∧
    convDemo (applyFixedPath (fun _ => none) hGood) =
      .ok (some (mkCalibreHighlightJson "/2/2/1:0" "/2/2/1:4" "good" 0 "ch1.xhtml")) :=
  ⟨rfl, rfl, rfl⟩

/-- C1 (amended): a highlight whose conversion raises aborts the batch at
that point — the highlights converted before it are kept and returned,
while it and every later highlight of the batch are dropped; the
exception is caught at the book level, not per highlight. -/
theorem spec_c1_amended (sp : String → Option Nat) (fp : String → Option String)
    (conv : KoboHighlight → Except String (Option CalibreHighlightJson))
    (pre rest : List KoboHighlight) (h : KoboHighlight) (e : String)
    (hconv : conv (applyFixedPath fp h) = .error e) :
    process_calibre_epub (.ok sp) fp conv (pre ++ h :: rest) =
      process_calibre_epub (.ok sp) fp conv pre := by
  simp only [process_calibre_epub]
  exact processHighlightsLoop_cut fp conv h e hconv pre rest

/-- C1 witness: concrete batch `[hGood, hBad, hGood]` — the failing middle
highlight cuts the batch down to the result of `[hGood]`. -/
theorem spec_c1_witness :
    process_calibre_epub (.ok (fun _ => none)) (fun _ => none) convDemo
        ([hGood] ++ hBad :: [hGood]) =
      process_calibre_epub (.ok (fun _ => none)) (fun _ => none) convDemo [hGood] :=
  spec_c1_amended (fun _ => none) (fun _ => none) convDemo [hGood] [hGood] hBad
    "failed to decode CFI" rfl

/-- C2 counterexample: "Hello." tokenizes to one sentence, and requesting
sentence index 3 makes `get_prev_sentences_offset` index `sentences[1]`
out of bounds (an `IndexError`, modelled by `none`) instead of clamping to
the end-of-text offset 6. -/
theorem spec_c2_counterexample :
    kteSentences "Hello." = ["Hello."] ∧
    get_prev_sentences_offset "Hello." 3 = none ∧
    ¬(get_prev_sentences_offset "Hello." 3 = some 6) :=
  ⟨rfl, rfl, by decide⟩

/-- C2 (amended): when the requested sentence index exceeds the detected
sentence count by MORE than one, `get_prev_sentences_offset` raises
`IndexError` (`none`) — no clamping is performed; only the boundary index
count + 1 returns the end-of-text offset (the summed length of all
sentences). -/
theorem spec_c2_amended (node : String) (n : Nat) :
    ((kteSentences node).length + 1 < n → get_prev_sentences_offset node n = none) ∧
      (n = (kteSentences node).length + 1 →
        get_prev_sentences_offset node n =
          some (((kteSentences node).map String.length).sum)) := by
  constructor
  · intro h
    rw [get_prev_sentences_offset]
    have hgt : n > 1 := by omega
    rw [if_pos hgt]
    obtain ⟨m, hm⟩ : ∃ m, n - 1 = m + 1 := ⟨n - 2, by omega⟩
    rw [hm]
    exact sumFirstSentences_oob _ m (by omega)
  · intro h
    by_cases h0 : (kteSentences node).length = 0
    · have hnot : ¬(n > 1) := by omega
      rw [get_prev_sentences_offset, if_neg hnot]
      rw [List.length_eq_zero.mp h0]
      rfl
    · have hgt : n > 1 := by omega
      rw [get_prev_sentences_offset, if_pos hgt]
      have hn1 : n - 1 = (kteSentences node).length := by omega
      rw [hn1, sumFirstSentences_take _ _ (le_refl _)]
      congr 2
      exact List.take_of_length_le (by simp)

/-- C2 witness: for "Hello." (one sentence), index 3 raises while index 2
returns the end-of-text offset 6. -/
theorem spec_c2_witness :
    get_prev_sentences_offset "Hello." 3 = none ∧
    get_prev_sentences_offset "Hello." 2 = some 6 :=
  ⟨(spec_c2_amended "Hello." 3).1 (by decide),
   (spec_c2_amended "Hello." 2).2 (by decide)⟩

/-- C3 counterexample: for the minimal well-formed document and the valid
pair (text node "Hello" at path [0,0,0,0], offset 12), the encoder yields
"/2/2/2/1:12", but decoding that CFI with the repository's system-1
decoder fails (step 2 is out of range at the document root, which has the
single child `<html>`): the decoder does not recover the (node, offset)
pair. -/
theorem spec_c3_counterexample :
    docHello.atPath [0, 0, 0, 0] = some (Node.text "Hello") ∧
    encode_cfi docHello [0, 0, 0, 0] 12 = some "/2/2/2/1:12" ∧
    decodeSystem1 docHello "/2/2/2/1:12" = none :=
  ⟨rfl, rfl, rfl⟩

/-- C3 (amended): the encoder is NOT an inverse of the repository's
system-1 decoder — it emits desktop-convention segments (even indices
among element-only children, `/2` for `<html>`), which the system-1
decoder, indexing 1-based among all children, fails to navigate: already
the leading step 2 is out of range under the document root. -/
theorem spec_c3_amended :
    encode_cfi docHello [0, 0, 0, 0] 0 = some "/2/2/2/1:0" ∧
    (find_node_by_system1_path docHello [2, 2, 2, 1]).toOption = none ∧
    decodeSystem1 docHello "/2/2/2/1:0" = none :=
  ⟨rfl, rfl, rfl⟩

/-- C4 counterexample: on an `<html>` with two element children, the
decoder's step 2 selects the SECOND child `<div>` (1-based among all
children), while the claimed rule `(2 / 2) - 1 = 0` among element-only
children selects the first child `<p>`; moreover a bracket-annotated
segment is not ignored but makes `int()` — and hence the parse — fail. -/
theorem spec_c4_counterexample :
    find_node_by_system1_path htmlC4 [2] =
      .ok ([1], Node.elem "div" none [Node.text "B"]) ∧
    claimNavigate htmlC4 [2] = some (Node.elem "p" none [Node.text "A"]) ∧
    ¬(Node.elem "div" none [Node.text "B"] = Node.elem "p" none [Node.text "A"]) ∧
    parse_system1_cfi "/2[sec1]/4:1" = none :=
  ⟨rfl, rfl, by decide, rfl⟩

/-- C4 (amended): the decoder treats every segment value `s` as a 1-based
index among ALL children except comments/processing instructions (text
nodes included), descending into child `s - 1`; values below 1 or past
the child count raise; bracketed identifiers are not supported at all —
`int()` rejects them so the whole CFI fails to parse. -/
theorem spec_c4_amended (nm : String) (iv : Option String) (cs : List Node)
    (s : Int) (h : 1 ≤ s) :
    ((find_node_by_system1_path (Node.elem nm iv cs) [s]).toOption.map
        (fun r => r.2)) =
      (significantChildren (Node.elem nm iv cs)).get? (s - 1).toNat ∧
    parse_system1_cfi "/2[sec1]/4:1" = none := by
  constructor
  · have hneg : ¬((s - 1 : Int) < 0) := by omega
    rw [find_node_by_system1_path]
    simp only [findGoSt, climbStack]
    simp only [hneg, if_false]
    rw [significantChildren,
      ← indexedChildren_filter_get_snd ((Node.elem nm iv cs).children) 0
        ((s - 1 : Int)).toNat]
    cases hg : ((indexedChildren 0 (Node.elem nm iv cs).children).filter
        (fun p => !skipNode p.2)).get? ((s - 1 : Int)).toNat with
    | none => rfl
    | some pr =>
        obtain ⟨r, c⟩ := pr
        rfl
  · rfl

/-- C4 witness: the single-step characterization evaluated on the concrete
two-element document at step 2. -/
theorem spec_c4_witness :
    ((find_node_by_system1_path htmlC4 [2]).toOption.map (fun r => r.2)) =
      (significantChildren htmlC4).get? ((2 - 1 : Int)).toNat ∧
    parse_system1_cfi "/2[sec1]/4:1" = none :=
  spec_c4_amended "html" none c4kids 2 (by decide)

/-- C5 (code behavior at the failing input): for the escaped text
"О" (one Cyrillic letter), the converter.py variant raises on byte
offset 1 (the prefix cuts the UTF-8 sequence in half) and the test.py
variant raises on character offset 3 (the prefix ends inside the `\u04`
escape); neither excludes the truncated escape — both fail, although both
succeed on escape-aligned offsets. -/
theorem spec_c5_evaluation :
    convert_offset_prog1_to_prog2 "\\u041e" (some 1) = none ∧
    convert_offset_prog1_to_prog2_test "\\u041e" (some 3) = none ∧
    convert_offset_prog1_to_prog2 "\\u041e" (some 2) = some 1 ∧
    convert_offset_prog1_to_prog2_test "\\u041e" (some 6) = some 1 :=
  ⟨rfl, rfl, rfl, rfl⟩

/-- C6: in `<body><p>Hello world. This is a test.</p></body>`, the
device path (tag-index 1, sentence-index 2, base-offset 0) decodes to the
paragraph's text node (arena path [0,0,0,0]) at offset 13; the tokenizer
splits the text into "Hello world. " (length 13) and "This is a test.",
and the summed length of the first sentence is 13. -/
theorem spec_c6_scenario :
    docScenario.atPath [0, 0, 0, 0] = some (Node.text scenarioText) ∧
    significant_text_nodes docScenario = [([0, 0, 0, 0], scenarioText)] ∧
    decode_device_path docScenario 1 2 0 = some ([0, 0, 0, 0], 13) ∧
    kteSentences scenarioText = ["Hello world. ", "This is a test."] ∧
    ("Hello world. " : String).length = 13 ∧
    get_prev_sentences_offset scenarioText 2 = some 13 :=
  ⟨rfl, rfl, rfl, rfl, rfl, rfl⟩

/-- C7 counterexample: in a document whose `body` has two content-equal
`<p>` children, encoding the text node of the SECOND `<p>` (arena path
[0,0,1,0]) emits "/2/2/2/1:0" — the position of the FIRST content-equal
sibling (bs4 `==` compares content) — while the claim's "1-based position
of that ancestor" prescribes "/2/2/4/1:0". -/
theorem spec_c7_counterexample :
    leafIsText docDup [0, 0, 1, 0] = true ∧
    encode_cfi docDup [0, 0, 1, 0] 0 = some "/2/2/2/1:0" ∧
    encodeCFIClaim docDup [0, 0, 1, 0] 0 = some "/2/2/4/1:0" ∧
    ¬(encode_cfi docDup [0, 0, 1, 0] 0 = encodeCFIClaim docDup [0, 0, 1, 0] 0) :=
  ⟨rfl, rfl, rfl, by decide⟩

/-- C7 (amended): for a text-node target, the encoder emits segments as
the claim describes, except that every position is that of the FIRST
sibling content-equal to the node (bs4 `==` is content equality); when
every node along the path has pairwise-distinct children the two notions
coincide and the encoder's output equals the claim's format exactly. -/
theorem spec_c7_amended (root : Node) (path : List Nat) (off : Int)
    (h1 : nodupAlongB root path = true) (h2 : leafIsText root path = true) :
    encode_cfi root path off = encodeCFIClaim root path off := by
  cases path with
  | nil => rfl
  | cons i rest =>
      show encodeCFIGo root off (i :: rest) = encodeCFIClaimGo root off (i :: rest)
      exact encodeGo_eq_claimGo (i :: rest) root off h1 h2

/-- C7 witness: on the duplicate-free scenario document the encoder's
output coincides with the claim's format at offset 13. -/
theorem spec_c7_witness :
    encode_cfi docScenario [0, 0, 0, 0] 13 = encodeCFIClaim docScenario [0, 0, 0, 0] 13 :=
  spec_c7_amended docScenario [0, 0, 0, 0] 13 (by decide) (by decide)

/-- C8: for every parsed document (a tag root) and CFI whose path resolves
to a node that is not a text node, `convert_cfi_system1_to_system2`
raises the "expected a text node" error (modelled by `none`) and produces
no output CFI: every node the decoder can reach is a tag or a text node,
and tags are rejected by the `isinstance(NavigableString)` check. -/
theorem spec_c8_malformed_target (soup : Node) (cfi : String) (steps : List Int)
    (off : Option Int) (path : List Nat) (node : Node)
    (hsoup : soup.isTag = true)
    (hparse : parse_system1_cfi cfi = some (steps, off))
    (hfind : find_node_by_system1_path soup steps = .ok (path, node))
    (hnot : node.isText = false) :
    convert_cfi_system1_to_system2 soup cfi = none := by
  have hres : ∃ res, findGoSt [] soup steps = .ok res ∧ res.2 = node := by
    rw [find_node_by_system1_path] at hfind
    cases hf : findGoSt [] soup steps with
    | error e => rw [hf] at hfind; simp [Except.map] at hfind
    | ok res =>
        rw [hf] at hfind
        simp only [Except.map] at hfind
        injection hfind with hfind
        exact ⟨res, rfl, (congrArg Prod.snd hfind)⟩
  obtain ⟨res, hf, hr2⟩ := hres
  have hkind := findGoSt_kind steps [] soup res (by intro p hp; simp at hp) hf
  have hTag : node.isTag = true := by
    rcases hkind with h | h
    · rw [hr2] at h
      cases node with
      | elem nm iv cs => rfl
      | text s => simp [Node.isText] at hnot
      | comment s => simp [Node.isTag, Node.isText] at h
      | procInst s => simp [Node.isTag, Node.isText] at h
    · rw [hr2] at h
      rw [h]
      exact hsoup
  unfold convert_cfi_system1_to_system2
  have hparse2 : parseSystem1CFIChars cfi.data = some (steps, off) := hparse
  rw [hparse2]
  simp only [Option.bind_eq_bind, Option.some_bind]
  rw [hfind]
  simp [hTag]

/-- C8 witness: the CFI "/1:0" on the minimal document resolves to the
`<html>` element and the conversion yields nothing. -/
theorem spec_c8_witness : convert_cfi_system1_to_system2 docHello "/1:0" = none :=
  spec_c8_malformed_target docHello "/1:0" [1] (some 0) [0] htmlHello rfl rfl rfl rfl

/-- C9 counterexample: a purple source highlight (kobo color code 1, which
the mapping table sends to "purple") still produces a desktop highlight
whose style descriptor carries the hard-coded "green"
(converter.py:531); the produced style does NOT carry the mapped color. -/
theorem spec_c9_counterexample :
    (mkCalibreHighlightJson "/2/2/1:0" "/2/2/1:4" "t" 0 "sp").style.which = "green" ∧
    kobo_color_to_calibre_color 1 = "purple" ∧
    ¬((mkCalibreHighlightJson "/2/2/1:0" "/2/2/1:4" "t" 0 "sp").style.which =
        kobo_color_to_calibre_color 1) :=
  ⟨rfl, rfl, by decide⟩

/-- C9 (amended): the fixed color table holds as stated — purple ↔ 1 and
unknown input maps to yellow/0 in both directions (the two functions are
modelled from the spec, being absent from src) — but the style descriptor
of every produced desktop-style highlight is the constant
`{"kind": "color", "type": "builtin", "which": "green"}`, independent of
the source highlight's color. -/
theorem spec_c9_amended :
    calibre_color_to_kobo_color "purple" = 1 ∧
    kobo_color_to_calibre_color 1 = "purple" ∧
    (∀ c : String, c ≠ "yellow" → c ≠ "purple" → c ≠ "blue" → c ≠ "green" →
      calibre_color_to_kobo_color c = 0) ∧
    (∀ k : Int, k ≠ 0 → k ≠ 1 → k ≠ 2 → k ≠ 3 →
      kobo_color_to_calibre_color k = "yellow") ∧
    (∀ s e t : String, ∀ i : Nat, ∀ sp : String,
      (mkCalibreHighlightJson s e t i sp).style =
        { kind := "color", variant := "builtin", which := "green" }) := by
  refine ⟨rfl, rfl, ?_, ?_, ?_⟩
  · intro c h1 h2 h3 h4
    simp [calibre_color_to_kobo_color, h1, h2, h3, h4]
  · intro k h1 h2 h3 h4
    simp [kobo_color_to_calibre_color, h1, h2, h3, h4]
  · intro s e t i sp
    rfl

/-- C9 witness: unknown inputs in both directions fall back to yellow/0. -/
theorem spec_c9_witness :
    calibre_color_to_kobo_color "magenta" = 0 ∧
    kobo_color_to_calibre_color 7 = "yellow" :=
  ⟨spec_c9_amended.2.2.1 "magenta" (by decide) (by decide) (by decide) (by decide),
   spec_c9_amended.2.2.2.1 7 (by decide) (by decide) (by decide) (by decide)⟩

/-- C10: a colon-free CFI string whose nonempty slash-separated groups all
parse as integers yields those steps with a `None` offset rather than
failing, and appending ":off" to it yields the same steps with the parsed
offset. -/
theorem spec_c10_parse (a b : List Char) (steps : List Int) (off : Int)
    (hA : hasChar ':' a = false) (hSteps : stepsOfChars a = some steps) :
    parseSystem1CFIChars a = some (steps, none) ∧
      (pyIntChars? b = some off →
        parseSystem1CFIChars (a ++ ':' :: b) = some (steps, some off)) := by
  have hA2 : hasChar ':' (a.dropWhile (fun c => c = '/')) = false :=
    hasChar_dropWhile ':' _ a hA
  rw [stepsOfChars] at hSteps
  constructor
  · rw [parseSystem1CFIChars]
    simp only [hA2, Bool.false_eq_true, if_false]
    rw [hSteps]
  · intro hOff
    rw [parseSystem1CFIChars]
    have hdw : (a ++ ':' :: b).dropWhile (fun c => c = '/') =
        a.dropWhile (fun c => c = '/') ++ ':' :: b :=
      dropWhile_append_cons _ ':' (by decide) a b
    simp only [hdw]
    simp only [hasChar_append_cons, if_true]
    rw [colon_takeWhile _ b hA2, colon_dropWhile _ b hA2]
    simp only [List.tail_cons]
    rw [hOff, hSteps]

/-- C10 witness: "/1/4" parses to steps [1, 4] with offset `None`;
"/1/4:12" parses to the same steps with offset 12. -/
theorem spec_c10_witness :
    parse_system1_cfi "/1/4" = some ([1, 4], none) ∧
    parse_system1_cfi "/1/4:12" = some ([1, 4], some 12) :=
  ⟨(spec_c10_parse "/1/4".data "12".data [1, 4] 12 rfl rfl).1,
   (spec_c10_parse "/1/4".data "12".data [1, 4] 12 rfl rfl).2 rfl⟩
